import Mathlib

/-!
Shallow embedding of the go-journal repository (Laisky/go-journal) and proofs
about its file-name scheme, directory scan, legacy replay loader and journal
writer paths.

Conventions of the embedding:
* Go int64 values are embedded as Int; timestamps as Nat (seconds).
* Go strings are embedded as String; all file names in this code are ASCII, so
  Go byte-wise operations (comparison, ToLower, HasSuffix) agree with the
  character-wise Lean versions used here.
* time.Time values reach the embedded code only through
  now.Format("20060102"), so the clock is passed as the already formatted
  UTC date string nowStr.
* Fallible operations return Option or a dedicated result inductive; a Go
  runtime panic (slice out of range, nil dereference) is a distinguished
  constructor, never an arbitrary value.
-/

namespace GoJournal

/-! ## String helpers mirroring the Go standard library -/

/-- Go strings.HasSuffix. -/
def goHasSuffix (s suffix : String) : Bool :=
  suffix.data.isSuffixOf s.data

/-- Go strings.ToLower; on the ASCII file names used by this repository it is
character-wise Char.toLower. -/
def lowerStr (s : String) : String :=
  ⟨s.data.map Char.toLower⟩

/-- Go path.Join for a clean directory and a bare file name. -/
def pathJoin (dir fname : String) : String :=
  dir ++ "/" ++ fname

/-- Go byte-wise string comparison a < b, character-wise here; on the ASCII
names this code compares, byte order and code-point order agree. -/
def goStrLtChars : List Char → List Char → Bool
  | [], [] => false
  | [], _ :: _ => true
  | _ :: _, [] => false
  | a :: as, b :: bs =>
    if a.toNat < b.toNat then true
    else if b.toNat < a.toNat then false
    else goStrLtChars as bs

/-- Go string comparison on String. -/
def goStrLt (a b : String) : Bool :=
  goStrLtChars a.data b.data

/-- Left-pad a decimal string with zeros to width n (the padding part of the
Go verb %08d). -/
def padZeros (s : String) (n : Nat) : String :=
  ⟨List.replicate (n - s.length) '0' ++ s.data⟩

/-- Go fmt.Sprintf with verb %08d applied to an int64: minimum width 8,
zero padded, the sign counted inside the width. -/
def fmtInt08 (v : Int) : String :=
  if v < 0 then "-" ++ padZeros (Nat.repr v.natAbs) 7
  else padZeros (Nat.repr v.toNat) 8

/-- Accumulator loop for decimal parsing: none at the first non-digit. -/
def parseDigitsAux : List Char → Nat → Option Nat
  | [], acc => some acc
  | c :: cs, acc =>
    if c.isDigit then parseDigitsAux cs (acc * 10 + (c.toNat - '0'.toNat)) else none

/-- Decimal value of a digit list, most significant first; none when the list
is empty or holds a non-digit. -/
def parseDigits : List Char → Option Nat
  | [] => none
  | cs => parseDigitsAux cs 0

/-- Decimal value of a digit list (the accumulator loop above, started at
zero), as a fold. -/
def digitsToNat (cs : List Char) : Nat :=
  cs.foldl (fun a c => a * 10 + (c.toNat - '0'.toNat)) 0

/-- Go strconv.ParseInt with base 10 and bit size 64, on the character list:
an optional sign, then at least one digit, and a range check against int64;
any violation is an error (none). -/
def parseGoInt64Chars : List Char → Option Int
  | [] => none
  | c :: cs =>
    if c = '+' then
      match parseDigits cs with
      | some n => if n ≤ 2 ^ 63 - 1 then some (n : Int) else none
      | none => none
    else if c = '-' then
      match parseDigits cs with
      | some n => if n ≤ 2 ^ 63 then some (-(n : Int)) else none
      | none => none
    else
      match parseDigits (c :: cs) with
      | some n => if n ≤ 2 ^ 63 - 1 then some (n : Int) else none
      | none => none

/-- Go strconv.ParseInt with base 10 and bit size 64 on a string. -/
def parseGoInt64 (s : String) : Option Int :=
  parseGoInt64Chars s.data

/-- Go strings.SplitN(s, ".", 2): the part before the first dot and the part
after it; none when the string holds no dot (SplitN then returns a
one-element slice). -/
def splitFirstDot : List Char → Option (List Char × List Char)
  | [] => none
  | c :: rest =>
    if c = '.' then some ([], rest)
    else (splitFirstDot rest).map (fun p => (c :: p.1, p.2))

/-! ## File-name pattern matching

The repository classifies directory entries with the regular expressions
regexp dataFileNameReg and idsFileNameReg from fs.go, both of the shape
eight digits, an underscore, eight digits, a dot, a three letter extension,
then an optional group of one arbitrary non-newline character followed by
the two letters g and z (the dot before gz is not escaped in the source). -/

/-- Consume exactly eight digit characters, returning the rest. -/
def takeDigits8 (cs : List Char) : Option (List Char) :=
  if (cs.take 8).length = 8 ∧ (cs.take 8).all Char.isDigit then some (cs.drop 8)
  else none

/-- Match the optional regex group of one arbitrary non-newline character and
the letters g and z, anchored at the end. -/
def matchOptGz : List Char → Bool
  | [] => true
  | [a, 'g', 'z'] => a ≠ '\n'
  | _ => false

/-- Match a list of characters against the anchored segment-name pattern with
the given three-letter extension. -/
def matchSegName (ext : List Char) (cs : List Char) : Bool :=
  match takeDigits8 cs with
  | none => false
  | some cs1 =>
    match cs1 with
    | '_' :: cs2 =>
      match takeDigits8 cs2 with
      | none => false
      | some cs3 =>
        match cs3 with
        | '.' :: cs4 =>
          if cs4.take 3 = ext ∧ 3 ≤ cs4.length then matchOptGz (cs4.drop 3)
          else false
        | _ => false
    | _ => false

/-- The data-file regex of fs.go. -/
def isDataFName (s : String) : Bool :=
  matchSegName ['b', 'u', 'f'] s.data

/-- The ids-file regex of fs.go. -/
def isIdsFName (s : String) : Bool :=
  matchSegName ['i', 'd', 's'] s.data

/-! ## GenerateNewBufFName -/

/-- Result of GenerateNewBufFName: the returned name, the (name, error) pair
of the error branches, or a Go runtime panic from slicing the pre-dot part
of a name shorter than nine characters. -/
inductive GenResult where
  | ok (newName : String)
  | err (ret : String)
  | panicked
deriving Repr, DecidableEq

/-- GenerateNewBufFName from fs.go (the two-argument variant): split the old
name at the first dot, slice the date and sequence out of the prefix, compare
the date with the formatted clock, and either restart the sequence for a new
day or increment it. -/
def generateNewBufFName (nowStr oldFName : String) : GenResult :=
  match splitFirstDot oldFName.data with
  | none => .err oldFName
  | some (name, ext) =>
    -- finfo[0][:8] and finfo[0][9:] panic in Go when the pre-dot part is
    -- shorter than nine characters
    if name.length < 9 then .panicked
    else if nowStr ≠ (⟨name.take 8⟩ : String) then
      .ok (nowStr ++ "_00000001." ++ lowerStr ⟨ext⟩)
    else
      match parseGoInt64 ⟨name.drop 9⟩ with
      | none => .err oldFName
      | some idx =>
        .ok ((⟨name.take 8⟩ : String) ++ "_" ++ fmtInt08 (idx + 1) ++ "." ++ lowerStr ⟨ext⟩)

/-- The extension as the v1 GenerateNewBufFName computes it: the case is
kept, and a gz suffix is appended here when compression is on and the
case-sensitive suffix check misses. -/
def v1Ext (ext : String) (isGz : Bool) : String :=
  if isGz && !goHasSuffix ext ".gz" then ext ++ ".gz" else ext

/-- GenerateNewBufFName from the v1 fs file (part_002, the three-argument
variant): same shape as the two-argument one, with the extension from
v1Ext. -/
def generateNewBufFNameV1 (nowStr oldFName : String) (isGz : Bool) : GenResult :=
  match splitFirstDot oldFName.data with
  | none => .err oldFName
  | some (name, ext) =>
    if name.length < 9 then .panicked
    else if nowStr ≠ (⟨name.take 8⟩ : String) then
      .ok (nowStr ++ "_00000001." ++ v1Ext ⟨ext⟩ isGz)
    else
      match parseGoInt64 ⟨name.drop 9⟩ with
      | none => .err oldFName
      | some idx =>
        .ok ((⟨name.take 8⟩ : String) ++ "_" ++ fmtInt08 (idx + 1) ++ "." ++ v1Ext ⟨ext⟩ isGz)

/-- appendGzSuffix from fs.go: append .gz only when the lower-cased name does
not already end in .gz. -/
def appendGzSuffix (fname : String) : String :=
  if goHasSuffix (lowerStr fname) ".gz" then fname else fname ++ ".gz"

/-- The compression block of PrepareNewBufFile in the v1 fs file (part_002
lines 151 to 154): when isGz holds, the literal suffix .gz is appended twice
and both appends target the data name; the ids name is left untouched by
this block. -/
def prepareNamesV1 (latestDataFName latestIDsFName : String) (isGz : Bool) : String × String :=
  if isGz then (latestDataFName ++ ".gz" ++ ".gz", latestIDsFName)
  else (latestDataFName, latestIDsFName)

/-- The compression block of PrepareNewBufFile in fs.go: appendGzSuffix is
applied to the data name and to the ids name. -/
def prepareNamesV2 (latestDataFName latestIDsFName : String) (isGz : Bool) : String × String :=
  if isGz then (appendGzSuffix latestDataFName, appendGzSuffix latestIDsFName)
  else (latestDataFName, latestIDsFName)

/-! ## Directory scan of PrepareNewBufFile (isScan branch) -/

/-- The accumulator of the scan loop of PrepareNewBufFile: the collected
absolute old file names and the running lexicographic maxima. -/
structure ScanState where
  oldDataFnames : List String
  oldIDsFnames : List String
  latestDataFName : String
  latestIDsFName : String
deriving Repr, DecidableEq

/-- One iteration of the scan loop: classify one entry by the two regexes,
append the matching entry (joined with the directory) to the corresponding
list and update the corresponding maximum; anything else is only logged. -/
def scanStep (dirPath : String) (st : ScanState) (fname : String) : ScanState :=
  if isDataFName fname then
    { st with
      oldDataFnames := st.oldDataFnames ++ [pathJoin dirPath fname],
      latestDataFName := if goStrLt st.latestDataFName fname then fname else st.latestDataFName }
  else if isIdsFName fname then
    { st with
      oldIDsFnames := st.oldIDsFnames ++ [pathJoin dirPath fname],
      latestIDsFName := if goStrLt st.latestIDsFName fname then fname else st.latestIDsFName }
  else st

/-- The scan loop over the directory listing. The predicate ex models
os.Stat: when a listed file no longer exists the whole of PrepareNewBufFile
returns a nil stat and a nil error (the macOS tolerance), embedded as
none. -/
def scanBufDirAux (dirPath : String) (ex : String → Bool) :
    List String → ScanState → Option ScanState
  | [], st => some st
  | f :: rest, st =>
    if ex (pathJoin dirPath f) then scanBufDirAux dirPath ex rest (scanStep dirPath st f)
    else none

/-- The isScan branch of PrepareNewBufFile from fs.go: fold the scan loop over
the listing starting from empty lists and empty maxima. -/
def prepareNewBufFileScan (dirPath : String) (ex : String → Bool)
    (listing : List String) : Option ScanState :=
  scanBufDirAux dirPath ex listing ⟨[], [], "", ""⟩

/-! ## Data records and the committed-id set -/

/-- A journal data record: an int64 id and an opaque payload (a map in Go,
irrelevant to every property proved here). -/
structure Data where
  ID : Int
  payload : Nat
deriving Repr, DecidableEq

/-- Modelled from the spec: the time-bounded committed-id set of section 4.A
(its Go source file is not under src; only its tests are). It maps each id to
the timestamp of its latest insertion; an entry is live while
now < addedAt + ttl, matching the spec sentence that once ttl seconds have
elapsed since an id was added, check_and_remove returns false. -/
structure Int64Set where
  ttl : Nat
  entries : List (Int × Nat)
deriving Repr, DecidableEq

/-- Membership of a live (non-expired) entry at the given time. -/
def Int64Set.memAt (s : Int64Set) (id : Int) (now : Nat) : Bool :=
  s.entries.any (fun e => e.1 == id && now < e.2 + s.ttl)

/-- Modelled from the spec: add(id) inserts the id with the current
timestamp, superseding an older entry for the same id. -/
def Int64Set.addInt64 (s : Int64Set) (id : Int) (now : Nat) : Int64Set :=
  { s with entries := (id, now) :: s.entries.filter (fun e => e.1 != id) }

/-- Modelled from the spec: check_and_remove(id) removes the id and returns
true when a live entry is present, and otherwise returns false leaving the
set unchanged. -/
def Int64Set.checkAndRemove (s : Int64Set) (id : Int) (now : Nat) : Bool × Int64Set :=
  if s.memAt id now then
    (true, { s with entries := s.entries.filter (fun e => e.1 != id) })
  else (false, s)

/-- Modelled from the spec: the non-consuming membership check used by the
v1 WriteData (the design notes of the spec call it a non-consuming check). -/
def Int64Set.isIDExists (s : Int64Set) (id : Int) (now : Nat) : Bool :=
  s.memAt id now

/-- Add a whole list of ids (ReadAllToInt64Set of the external IdsDecoder
streaming into the set). -/
def Int64Set.addAll (s : Int64Set) (ids : List Int) (now : Nat) : Int64Set :=
  ids.foldl (fun acc i => acc.addInt64 i now) s

/-! ## The file-system environments seen by the loader

The external decoders are specified by contract only (spec section 4.C), so
an ids file is embedded as the outcome the decoder calls produce for it, and
a data file as the list of records its decoder yields before the terminal
end-of-file or corrupt-record signal (both terminals make Load close the
file and move on, so they need not be distinguished). -/

/-- Everything Load can observe about one data file: the records decoded
before the terminal signal. A file absent from the environment stands for an
open failure or a decoder-construction failure, which Load treats alike. -/
structure DataFile where
  records : List Data
deriving Repr, DecidableEq

/-- Look up a data file by name (os.Open plus NewDataDecoder). -/
def fsOpen (env : List (String × DataFile)) (name : String) : Option DataFile :=
  (env.find? (fun e => e.1 == name)).map (fun e => e.2)

/-- Outcome of reading one ids file during LoadAllids: open failure, decoder
construction failure, a read failure after a partial prefix was already
streamed into the set, or a clean read of all ids. -/
inductive IdsReadOutcome where
  | openErr
  | decodeErr
  | readErr (leftoverIds : List Int)
  | ok (ids : List Int)
deriving Repr, DecidableEq

/-- Outcome of reading one ids file during LoadMaxId: open failure, decoder
construction failure, a LoadMaxId failure together with the value the Go
multi-assignment still stores into id, or the maximum the external decoder
reports for the file. -/
inductive MaxIdOutcome where
  | openErr
  | decodeErr
  | maxErr (leftoverVal : Int)
  | ok (maxVal : Int)
deriving Repr, DecidableEq

/-- Look up an ids file in an outcome environment; an absent name behaves as
an open failure. -/
def idsLookup {α : Type} (env : List (String × α)) (name : String) : Option α :=
  (env.find? (fun e => e.1 == name)).map (fun e => e.2)

/-! ## LegacyLoader -/

/-- LegacyLoader from legacy.go (v1 and v2 differ only in logging). The open
os.File and its DataDecoder are embedded together as the list of records not
yet read from the open file. -/
structure LegacyLoader where
  dataFNames : List String
  idsFNames : List String
  isNeedReload : Bool
  isCompress : Bool
  isReadyReload : Bool
  ids : Int64Set
  dataFileIdx : Int
  dataFilesLen : Int
  dataFp : Option (List Data)
deriving Repr, DecidableEq

/-- NewLegacyLoader: fresh set, reload pending, ready exactly when the data
list is non-empty; the remaining fields keep their Go zero values. -/
def NewLegacyLoader (dataFNames idsFNames : List String) (isCompress : Bool)
    (committedIDTTL : Nat) : LegacyLoader :=
  { dataFNames := dataFNames
    idsFNames := idsFNames
    isNeedReload := true
    isCompress := isCompress
    isReadyReload := dataFNames.length ≠ 0
    ids := ⟨committedIDTTL, []⟩
    dataFileIdx := 0
    dataFilesLen := 0
    dataFp := none }

/-- Reset from legacy.go: replace both lists and mark ready exactly when the
new data list is non-empty. -/
def LegacyLoader.Reset (l : LegacyLoader) (dataFNames idsFNames : List String) :
    LegacyLoader :=
  { l with
    dataFNames := dataFNames
    idsFNames := idsFNames
    isReadyReload := dataFNames.length ≠ 0 }

/-- AddID from legacy.go. -/
def LegacyLoader.AddID (l : LegacyLoader) (id : Int) (now : Nat) : LegacyLoader :=
  { l with ids := l.ids.addInt64 id now }

/-- The loop body of LoadAllids: per-file errors are appended to one message
and the loop continues; a partial read still leaves its prefix in the set. -/
def loadAllIdsAux (env : List (String × IdsReadOutcome)) (now : Nat) :
    List String → Int64Set → String → Int64Set × String
  | [], s, errMsg => (s, errMsg)
  | f :: rest, s, errMsg =>
    match idsLookup env f with
    | none => loadAllIdsAux env now rest s (errMsg ++ "open file " ++ f ++ ";")
    | some .openErr => loadAllIdsAux env now rest s (errMsg ++ "open file " ++ f ++ ";")
    | some .decodeErr =>
      loadAllIdsAux env now rest s (errMsg ++ "create ids decoder " ++ f ++ ";")
    | some (.readErr leftoverIds) =>
      loadAllIdsAux env now rest (s.addAll leftoverIds now) (errMsg ++ "load ids from " ++ f ++ ";")
    | some (.ok ids) => loadAllIdsAux env now rest (s.addAll ids now) errMsg

/-- LoadAllids from legacy.go: merge every ids file into the given set and
return the joined error message when any file failed. -/
def LegacyLoader.LoadAllids (l : LegacyLoader) (env : List (String × IdsReadOutcome))
    (s : Int64Set) (now : Nat) : Int64Set × Option String :=
  let r := loadAllIdsAux env now l.idsFNames s ""
  (r.1, if r.2 = "" then none else some ("load all ids: " ++ r.2))

/-- The loop body of LoadMaxId in legacy.go, carried over both versions
unchanged: maxId accumulates the running maximum while id holds the value of
the latest per-file call; an open failure aborts with (0, error), the other
failures skip the file. -/
def loadMaxIdAux (env : List (String × MaxIdOutcome)) :
    List String → Int → Int → Int × Option String
  | [], _maxId, id => (id, none)
  | f :: rest, maxId, id =>
    match idsLookup env f with
    | none => (0, some ("open file " ++ f ++ " to load maxid"))
    | some .openErr => (0, some ("open file " ++ f ++ " to load maxid"))
    | some .decodeErr => loadMaxIdAux env rest maxId id
    | some (.maxErr v) => loadMaxIdAux env rest maxId v
    | some (.ok v) => loadMaxIdAux env rest (if v > maxId then v else maxId) v

/-- LoadMaxId from legacy.go (LoadMaxID in v2 is the same loop): note that the
source returns the variable id, not the accumulated maxId. -/
def LegacyLoader.LoadMaxId (l : LegacyLoader) (env : List (String × MaxIdOutcome)) :
    Int × Option String :=
  loadMaxIdAux env l.idsFNames 0 0

/-- The same loop, but final value maxId: the behavior the spec mandates
(scan all id files; return the maximum) and the doc comment of the source
announces. Kept for comparison with the loop above. -/
def loadMaxIdSpecAux (env : List (String × MaxIdOutcome)) :
    List String → Int → Int → Int × Option String
  | [], maxId, _id => (maxId, none)
  | f :: rest, maxId, id =>
    match idsLookup env f with
    | none => (0, some ("open file " ++ f ++ " to load maxid"))
    | some .openErr => (0, some ("open file " ++ f ++ " to load maxid"))
    | some .decodeErr => loadMaxIdSpecAux env rest maxId id
    | some (.maxErr v) => loadMaxIdSpecAux env rest maxId v
    | some (.ok v) => loadMaxIdSpecAux env rest (if v > maxId then v else maxId) v

/-- The spec-mandated result of LoadMaxId. -/
def LegacyLoader.loadMaxIdSpec (l : LegacyLoader) (env : List (String × MaxIdOutcome)) :
    Int × Option String :=
  loadMaxIdSpecAux env l.idsFNames 0 0

/-- What Load returns to its caller: io.EOF, a record, or a Go runtime panic
from indexing dataFNames out of range (unreachable from the states the
journal produces, see the invariants below). -/
inductive LoadResult where
  | eof
  | yield (d : Data)
  | panicked
deriving Repr, DecidableEq

/-- Index a list with a Go int index: none models the out-of-range panic. -/
def listGetAt (xs : List String) (i : Int) : Option String :=
  if 0 ≤ i then xs[i.toNat]? else none

/-- The goto loop of Load (labels READ_NEW_FILE and READ_NEW_LINE in
legacy.go), with explicit fuel; none means the fuel ran out, never a
behavior of the source. With no file open the cursor advances, end-of-file
is returned the moment it reaches dataFilesLen, and an open or decoder
failure just moves on to the next file. With a file open one record is
decoded: a decode terminal closes the file and returns to the open loop, a
committed id (CheckAndRemove true) is discarded and the loop reads again,
and anything else is yielded. -/
def loadLoop (env : List (String × DataFile)) (now : Nat) :
    Nat → LegacyLoader → Option (LegacyLoader × LoadResult)
  | 0, _ => none
  | fuel + 1, l =>
    match l.dataFp with
    | none =>
      if l.dataFileIdx + 1 = l.dataFilesLen then
        some ({ l with dataFileIdx := l.dataFileIdx + 1, isNeedReload := true }, .eof)
      else
        match listGetAt l.dataFNames (l.dataFileIdx + 1) with
        | none => some ({ l with dataFileIdx := l.dataFileIdx + 1 }, .panicked)
        | some fname =>
          match fsOpen env fname with
          | none =>
            loadLoop env now fuel { l with dataFileIdx := l.dataFileIdx + 1, dataFp := none }
          | some file =>
            loadLoop env now fuel
              { l with dataFileIdx := l.dataFileIdx + 1, dataFp := some file.records }
    | some rem =>
      match rem with
      | [] => loadLoop env now fuel { l with dataFp := none }
      | d :: rest =>
        if (l.ids.checkAndRemove d.ID now).1 then
          loadLoop env now fuel
            { l with dataFp := some rest, ids := (l.ids.checkAndRemove d.ID now).2 }
        else
          some ({ l with dataFp := some rest, ids := (l.ids.checkAndRemove d.ID now).2 },
            .yield d)

/-- Load from legacy.go: when a reload is pending and files are ready, mark
the reload consumed, bulk-load all ids (errors only logged), set the cursor
to -1 and dataFilesLen to the list length minus one, then run the loop;
when a reload is pending without files, io.EOF; otherwise run the loop
directly. -/
def LegacyLoader.Load (l : LegacyLoader) (env : List (String × DataFile))
    (idsEnv : List (String × IdsReadOutcome)) (now : Nat) (fuel : Nat) :
    Option (LegacyLoader × LoadResult) :=
  if l.isNeedReload then
    if !l.isReadyReload then some (l, .eof)
    else
      let ids1 := (l.LoadAllids idsEnv l.ids now).1
      loadLoop env now fuel
        { l with
          isReadyReload := false
          ids := ids1
          dataFilesLen := (l.dataFNames.length : Int) - 1
          dataFileIdx := -1
          isNeedReload := false }
  else loadLoop env now fuel l

/-- os.Remove applied to a list of names: each removal that fails is only
logged, an existing name disappears from the disk. The disk is the list of
present file names. -/
def removeFilesFromDisk (disk : List String) (names : List String) : List String :=
  disk.filter (fun f => !names.contains f)

/-- One if-block of Clean: when the list has more than one name, remove all
but the last from disk and shrink the list to exactly the last name; shorter
lists and the disk are left alone. -/
def cleanOne (fnames disk : List String) : List String × List String :=
  if 1 < fnames.length then
    (match fnames.getLast? with
      | some x => [x]
      | none => [],
     removeFilesFromDisk disk fnames.dropLast)
  else (fnames, disk)

/-- Clean from legacy.go: the block above for the data list, then for the ids
list; then close the replay handle and clear it (Load needs the nil). -/
def LegacyLoader.Clean (l : LegacyLoader) (disk : List String) :
    LegacyLoader × List String :=
  let p1 := cleanOne l.dataFNames disk
  let p2 := cleanOne l.idsFNames p1.2
  ({ l with dataFNames := p1.1, idsFNames := p2.1, dataFp := none }, p2.2)

/-! ## Journal -/

/-- Result of a writer-path call: success, an encoder error surfaced to the
caller, or a Go nil dereference when the legacy loader was never
installed. -/
inductive WriteOutcome where
  | ok
  | encErr
  | nilPanic
deriving Repr, DecidableEq

/-- The journal fields the writer and replay paths touch: the legacy-lock
flag (a try-lock mutex), the legacy loader handle, and the current data and
ids encoders embedded as the lists of values successfully written to
them. -/
structure Journal where
  legacyLockHeld : Bool
  legacy : Option LegacyLoader
  dataEnc : List Data
  idsEnc : List Int
deriving Repr, DecidableEq

/-- WriteData from src/journal.go (v1): drop the record silently when
IsIDExists reports the id as committed, otherwise hand it to the data
encoder, whose outcome is the encOk argument. -/
def Journal.WriteDataV1 (j : Journal) (d : Data) (now : Nat) (encOk : Bool) :
    Journal × WriteOutcome :=
  match j.legacy with
  | none => (j, .nilPanic)
  | some lg =>
    if lg.ids.isIDExists d.ID now then (j, .ok)
    else if encOk then ({ j with dataEnc := j.dataEnc ++ [d] }, .ok)
    else (j, .encErr)

/-- WriteData from the v2 journal file (part_004): the check is the consuming
CheckAndRemove. -/
def Journal.WriteDataV2 (j : Journal) (d : Data) (now : Nat) (encOk : Bool) :
    Journal × WriteOutcome :=
  match j.legacy with
  | none => (j, .nilPanic)
  | some lg =>
    let cr := lg.ids.checkAndRemove d.ID now
    let j1 := { j with legacy := some { lg with ids := cr.2 } }
    if cr.1 then (j1, .ok)
    else if encOk then ({ j1 with dataEnc := j.dataEnc ++ [d] }, .ok)
    else (j1, .encErr)

/-- WriteId from journal.go (WriteID in v2, identical body): add the id to
the committed set first, then write it to the ids encoder; an encoder error
is returned but the set change stays. -/
def Journal.WriteId (j : Journal) (id : Int) (now : Nat) (encOk : Bool) :
    Journal × WriteOutcome :=
  match j.legacy with
  | none => (j, .nilPanic)
  | some lg =>
    let j1 := { j with legacy := some (lg.AddID id now) }
    if encOk then ({ j1 with idsEnc := j.idsEnc ++ [id] }, .ok)
    else (j1, .encErr)

/-- What LoadLegacyBuf returns: the panic of a missing LockLegacy, io.EOF, or
a record; loader-level panics are passed through. -/
inductive LoadLegacyResult where
  | lockPanic
  | eof
  | yield (d : Data)
  | panicked
deriving Repr, DecidableEq

/-- LoadLegacyBuf from src/journal.go: panic unless the legacy lock is held;
EOF with an unlock when no loader is installed; otherwise delegate to Load,
and on its EOF run Clean and release the lock. -/
def Journal.LoadLegacyBuf (j : Journal) (env : List (String × DataFile))
    (idsEnv : List (String × IdsReadOutcome)) (disk : List String)
    (now : Nat) (fuel : Nat) : Option (Journal × List String × LoadLegacyResult) :=
  if !j.legacyLockHeld then some (j, disk, .lockPanic)
  else
    match j.legacy with
    | none => some ({ j with legacyLockHeld := false }, disk, .eof)
    | some lg =>
      match lg.Load env idsEnv now fuel with
      | none => none
      | some (lg1, .eof) =>
        let c := lg1.Clean disk
        some ({ j with legacy := some c.1, legacyLockHeld := false }, c.2, .eof)
      | some (lg1, .yield d) => some ({ j with legacy := some lg1 }, disk, .yield d)
      | some (lg1, .panicked) => some ({ j with legacy := some lg1 }, disk, .panicked)

/-! ## Auxiliary definitions for the statements and witnesses -/

/-- Running lexicographic maximum of a list of names with the Go comparison,
started from a given value; this is exactly how the scan loop tracks the
latest matching name. -/
def maxNameFrom (a : String) (names : List String) : String :=
  names.foldl (fun acc f => if goStrLt acc f then f else acc) a

/-- The invariant the replay loop of Load maintains between iterations: the
length field is the list length minus one, the cursor sits between -1 and
that bound, and any open file is a not-yet-read suffix of the environment
content of the file the cursor points at. -/
def LoopInv (env : List (String × DataFile)) (l : LegacyLoader) : Prop :=
  l.dataFilesLen = (l.dataFNames.length : Int) - 1 ∧
  -1 ≤ l.dataFileIdx ∧ l.dataFileIdx < l.dataFilesLen ∧
  (∀ rem, l.dataFp = some rem →
    ∃ fname file, listGetAt l.dataFNames l.dataFileIdx = some fname ∧
      fsOpen env fname = some file ∧ rem.IsSuffix file.records)

/-- Concrete data-file environment for the witnesses: one readable file named
a holding a single record with id 2. -/
def loadWitnessEnv : List (String × DataFile) :=
  [("a", ⟨[⟨2, 0⟩]⟩)]

/-- The loader state Load reaches in the witness run right after yielding the
record with id 2 out of file a. -/
def loadWitnessFinal : LegacyLoader :=
  { dataFNames := ["a", "b"]
    idsFNames := []
    isNeedReload := false
    isCompress := false
    isReadyReload := false
    ids := ⟨60, []⟩
    dataFileIdx := 0
    dataFilesLen := 1
    dataFp := some [] }

/-- Concrete loader for the WriteData counterexample: id 5 committed at time
0 with a TTL of 100. -/
def cexLoader : LegacyLoader :=
  { dataFNames := []
    idsFNames := []
    isNeedReload := true
    isCompress := false
    isReadyReload := false
    ids := ⟨100, [(5, 0)]⟩
    dataFileIdx := 0
    dataFilesLen := 0
    dataFp := none }

/-- Concrete journal wrapping cexLoader with empty encoders. -/
def cexJournal : Journal :=
  ⟨false, some cexLoader, [], []⟩

/-- The record with the committed id 5. -/
def cexData : Data :=
  ⟨5, 0⟩

/-- Concrete journal for the WriteId witness: a fresh loader, nothing
written yet. -/
def widJournal : Journal :=
  ⟨false, some (NewLegacyLoader [] [] false 60), [], []⟩

/-- Concrete loader for the Clean witness: two data files, two ids files. -/
def cleanWitnessLoader : LegacyLoader :=
  { dataFNames := ["d/a.buf", "d/b.buf"]
    idsFNames := ["d/a.ids", "d/b.ids"]
    isNeedReload := true
    isCompress := false
    isReadyReload := false
    ids := ⟨60, []⟩
    dataFileIdx := 2
    dataFilesLen := 1
    dataFp := some [] }

/-! ## Theorems -/

/-! ### Helper lemmas on the committed-id set -/

theorem checkAndRemove_fst_eq (s : Int64Set) (id : Int) (now : Nat) :
    (s.checkAndRemove id now).1 = s.memAt id now := by
  unfold Int64Set.checkAndRemove
  split <;> simp_all

theorem checkAndRemove_false_snd (s : Int64Set) (id : Int) (now : Nat)
    (h : s.memAt id now = false) : (s.checkAndRemove id now).2 = s := by
  unfold Int64Set.checkAndRemove
  simp [h]

theorem memAt_filter_self (s : Int64Set) (id : Int) (now : Nat) :
    Int64Set.memAt ⟨s.ttl, s.entries.filter (fun e => e.1 != id)⟩ id now = false := by
  unfold Int64Set.memAt
  simp only [List.any_eq_false]
  intro e he
  have hne : e.1 ≠ id := by
    have := (List.mem_filter.mp he).2
    simpa using this
  simp [hne]

theorem checkAndRemove_snd_not_mem (s : Int64Set) (id : Int) (now : Nat) :
    (s.checkAndRemove id now).2.memAt id now = false := by
  unfold Int64Set.checkAndRemove
  split
  · exact memAt_filter_self s id now
  · simp_all

theorem memAt_add_self (s : Int64Set) (id : Int) (now : Nat) (h : 0 < s.ttl) :
    (s.addInt64 id now).memAt id now = true := by
  unfold Int64Set.addInt64 Int64Set.memAt
  simp [List.any_cons]
  omega

/-! ### C1: Load yields only uncommitted records -/

theorem loadLoop_yield_not_committed (env : List (String × DataFile)) (now : Nat) :
    ∀ (fuel : Nat) (l l1 : LegacyLoader) (d : Data),
      loadLoop env now fuel l = some (l1, .yield d) →
      l1.ids.memAt d.ID now = false := by
  intro fuel
  induction fuel with
  | zero =>
    intro l l1 d h
    simp [loadLoop] at h
  | succ n ih =>
    intro l l1 d h
    unfold loadLoop at h
    split at h
    · -- no open file
      split at h
      · simp at h
      · split at h
        · simp at h
        · split at h
          · exact ih _ _ _ h
          · exact ih _ _ _ h
    · -- open file
      split at h
      · exact ih _ _ _ h
      · -- one record decoded
        split at h
        · exact ih _ _ _ h
        · simp only [Option.some.injEq, Prod.mk.injEq, LoadResult.yield.injEq] at h
          obtain ⟨hl, hd⟩ := h
          subst hd
          subst hl
          exact checkAndRemove_snd_not_mem _ _ _

theorem load_yield_helper (env : List (String × DataFile))
    (idsEnv : List (String × IdsReadOutcome)) (now fuel : Nat)
    (l l1 : LegacyLoader) (d : Data)
    (h : l.Load env idsEnv now fuel = some (l1, .yield d)) :
    l1.ids.memAt d.ID now = false := by
  unfold LegacyLoader.Load at h
  split at h
  · split at h
    · simp at h
    · exact loadLoop_yield_not_committed env now fuel _ _ _ h
  · exact loadLoop_yield_not_committed env now fuel _ _ _ h

theorem load_yields_only_uncommitted
    (env : List (String × DataFile)) (idsEnv : List (String × IdsReadOutcome))
    (disk : List String) (now fuel : Nat) :
    (∀ (l l1 : LegacyLoader) (d : Data),
      l.Load env idsEnv now fuel = some (l1, .yield d) →
      l1.ids.memAt d.ID now = false) ∧
    (∀ (j j1 : Journal) (disk1 : List String) (d : Data),
      j.LoadLegacyBuf env idsEnv disk now fuel = some (j1, disk1, .yield d) →
      ∃ lg1, j1.legacy = some lg1 ∧ lg1.ids.memAt d.ID now = false) := by
  constructor
  · intro l l1 d h
    exact load_yield_helper env idsEnv now fuel l l1 d h
  · intro j j1 disk1 d h
    unfold Journal.LoadLegacyBuf at h
    split at h
    · simp at h
    · split at h
      · simp at h
      · rename_i lg hlg
        split at h
        · simp at h
        · simp at h
        · rename_i lg1 d0 hload
          simp only [Option.some.injEq, Prod.mk.injEq, LoadLegacyResult.yield.injEq] at h
          obtain ⟨hj, hdk, hd⟩ := h
          subst hd
          subst hj
          exact ⟨lg1, rfl, load_yield_helper env idsEnv now fuel lg lg1 d0 hload⟩
        · simp at h

theorem load_yields_only_uncommitted_witness :
    (NewLegacyLoader ["a", "b"] [] false 60).Load loadWitnessEnv [] 0 10 =
      some (loadWitnessFinal, .yield ⟨2, 0⟩) ∧
    loadWitnessFinal.ids.memAt 2 0 = false := by
  refine ⟨by decide, ?_⟩
  exact (load_yields_only_uncommitted loadWitnessEnv [] [] 0 10).1
    (NewLegacyLoader ["a", "b"] [] false 60) loadWitnessFinal ⟨2, 0⟩ (by decide)

/-! ### C2: replay never touches the last entry of the data-file list -/

theorem listGetAt_some_nonneg {xs : List String} {i : Int} {s : String}
    (h : listGetAt xs i = some s) : 0 ≤ i := by
  unfold listGetAt at h
  split at h
  · assumption
  · simp at h

theorem loadLoop_preserves (env : List (String × DataFile)) (now : Nat) :
    ∀ (fuel : Nat) (l l1 : LegacyLoader) (r : LoadResult),
      loadLoop env now fuel l = some (l1, r) →
      l1.dataFNames = l.dataFNames ∧ l1.dataFilesLen = l.dataFilesLen := by
  intro fuel
  induction fuel with
  | zero =>
    intro l l1 r h
    simp [loadLoop] at h
  | succ n ih =>
    intro l l1 r h
    unfold loadLoop at h
    split at h
    · split at h
      · simp only [Option.some.injEq, Prod.mk.injEq] at h
        obtain ⟨hl, _⟩ := h
        subst hl
        exact ⟨rfl, rfl⟩
      · split at h
        · simp only [Option.some.injEq, Prod.mk.injEq] at h
          obtain ⟨hl, _⟩ := h
          subst hl
          exact ⟨rfl, rfl⟩
        · split at h
          · have hx := ih _ _ _ h
            exact hx
          · have hx := ih _ _ _ h
            exact hx
    · split at h
      · have hx := ih _ _ _ h
        exact hx
      · split at h
        · have hx := ih _ _ _ h
          exact hx
        · simp only [Option.some.injEq, Prod.mk.injEq] at h
          obtain ⟨hl, _⟩ := h
          subst hl
          exact ⟨rfl, rfl⟩

theorem loadLoop_yield_inv (env : List (String × DataFile)) (now : Nat) :
    ∀ (fuel : Nat) (l l1 : LegacyLoader) (d : Data),
      LoopInv env l →
      loadLoop env now fuel l = some (l1, .yield d) →
      0 ≤ l1.dataFileIdx ∧ l1.dataFileIdx < l1.dataFilesLen ∧
      l1.dataFilesLen = (l1.dataFNames.length : Int) - 1 ∧
      ∃ fname file, listGetAt l1.dataFNames l1.dataFileIdx = some fname ∧
        fsOpen env fname = some file ∧ d ∈ file.records := by
  intro fuel
  induction fuel with
  | zero =>
    intro l l1 d hinv h
    simp [loadLoop] at h
  | succ n ih =>
    intro l l1 d hinv h
    obtain ⟨hlen, hlo, hhi, hfp⟩ := hinv
    unfold loadLoop at h
    split at h
    · rename_i heqfp
      split at h
      · simp at h
      · rename_i hnend
        split at h
        · simp at h
        · rename_i fname hget
          split at h
          · rename_i hopen
            have hinv2 : LoopInv env
                { l with dataFileIdx := l.dataFileIdx + 1, dataFp := none } := by
              refine ⟨hlen, ?_, ?_, ?_⟩
              · show (-1 : Int) ≤ l.dataFileIdx + 1
                omega
              · show l.dataFileIdx + 1 < l.dataFilesLen
                omega
              · intro rem hrem
                exact Option.noConfusion hrem
            have hx := ih _ _ _ hinv2 h
            exact hx
          · rename_i file hopen
            have hinv2 : LoopInv env
                { l with dataFileIdx := l.dataFileIdx + 1, dataFp := some file.records } := by
              refine ⟨hlen, ?_, ?_, ?_⟩
              · show (-1 : Int) ≤ l.dataFileIdx + 1
                omega
              · show l.dataFileIdx + 1 < l.dataFilesLen
                omega
              · intro rem hrem
                have hrem2 : some file.records = some rem := hrem
                simp only [Option.some.injEq] at hrem2
                subst hrem2
                exact ⟨fname, file, hget, hopen, List.suffix_refl _⟩
            have hx := ih _ _ _ hinv2 h
            exact hx
    · rename_i rem0 heqfp
      split at h
      · have hinv2 : LoopInv env { l with dataFp := none } := by
          refine ⟨hlen, hlo, hhi, ?_⟩
          intro rem2 hrem2
          exact Option.noConfusion hrem2
        have hx := ih _ _ _ hinv2 h
        exact hx
      · rename_i d0 rest
        split at h
        · have hinv2 : LoopInv env
              { l with dataFp := some rest, ids := (l.ids.checkAndRemove d0.ID now).2 } := by
            refine ⟨hlen, hlo, hhi, ?_⟩
            intro rem2 hrem2
            have hrem3 : some rest = some rem2 := hrem2
            simp only [Option.some.injEq] at hrem3
            subst hrem3
            obtain ⟨fname, file, hget, hopen, hsuf⟩ := hfp (d0 :: rest) heqfp
            exact ⟨fname, file, hget, hopen, (List.suffix_cons d0 rest).trans hsuf⟩
          have hx := ih _ _ _ hinv2 h
          exact hx
        · simp only [Option.some.injEq, Prod.mk.injEq, LoadResult.yield.injEq] at h
          obtain ⟨hl, hd⟩ := h
          subst hd
          subst hl
          obtain ⟨fname, file, hget, hopen, hsuf⟩ := hfp (d0 :: rest) heqfp
          refine ⟨listGetAt_some_nonneg hget, hhi, hlen,
            fname, file, hget, hopen, hsuf.subset (List.mem_cons_self _ _)⟩

theorem load_skips_last_data_file
    (env : List (String × DataFile)) (idsEnv : List (String × IdsReadOutcome))
    (now fuel : Nat) (l : LegacyLoader)
    (hne : l.dataFNames ≠ [])
    (hreload : l.isNeedReload = true)
    (hready : l.isReadyReload = true)
    (hfp : l.dataFp = none) :
    (∀ (l1 : LegacyLoader) (r : LoadResult),
      l.Load env idsEnv now fuel = some (l1, r) →
      l1.dataFNames = l.dataFNames ∧
      l1.dataFilesLen = (l.dataFNames.length : Int) - 1) ∧
    (∀ (l1 : LegacyLoader) (d : Data),
      l.Load env idsEnv now fuel = some (l1, .yield d) →
      0 ≤ l1.dataFileIdx ∧ l1.dataFileIdx < (l.dataFNames.length : Int) - 1 ∧
      ∃ fname file, listGetAt l.dataFNames l1.dataFileIdx = some fname ∧
        fsOpen env fname = some file ∧ d ∈ file.records) ∧
    (∀ (l2 : LegacyLoader),
      l2.isNeedReload = false → l2.dataFp = none →
      l2.dataFileIdx + 1 = l2.dataFilesLen →
      l2.Load env idsEnv now (fuel + 1) =
        some ({ l2 with dataFileIdx := l2.dataFilesLen, isNeedReload := true }, .eof)) := by
  have hload :
      ∀ p, l.Load env idsEnv now fuel = p →
        loadLoop env now fuel
          { l with
            isReadyReload := false
            ids := (l.LoadAllids idsEnv l.ids now).1
            dataFilesLen := (l.dataFNames.length : Int) - 1
            dataFileIdx := -1
            isNeedReload := false } = p := by
    intro p hp
    rw [← hp]
    unfold LegacyLoader.Load
    rw [hreload, hready]
    simp
  refine ⟨?_, ?_, ?_⟩
  · intro l1 r h
    have h2 := hload _ h
    have h3 := loadLoop_preserves env now fuel _ _ _ h2
    obtain ⟨ha, hb⟩ := h3
    exact ⟨ha, hb⟩
  · intro l1 d h
    have h2 := hload _ h
    have hinv : LoopInv env
        { l with
          isReadyReload := false
          ids := (l.LoadAllids idsEnv l.ids now).1
          dataFilesLen := (l.dataFNames.length : Int) - 1
          dataFileIdx := -1
          isNeedReload := false } := by
      refine ⟨rfl, ?_, ?_, ?_⟩
      · show (-1 : Int) ≤ -1
        exact le_refl _
      · show (-1 : Int) < (l.dataFNames.length : Int) - 1
        have hpos : 0 < l.dataFNames.length := List.length_pos.mpr hne
        omega
      · intro rem hrem
        have hrem2 : l.dataFp = some rem := hrem
        rw [hfp] at hrem2
        exact Option.noConfusion hrem2
    have h3 := loadLoop_yield_inv env now fuel _ _ _ hinv h2
    have h4 := loadLoop_preserves env now fuel _ _ _ h2
    obtain ⟨hge, hlt, _, fname, file, hget, hopen, hmem⟩ := h3
    obtain ⟨hnames0, hflen0⟩ := h4
    have hnames : l1.dataFNames = l.dataFNames := hnames0
    have hflen : l1.dataFilesLen = (l.dataFNames.length : Int) - 1 := hflen0
    refine ⟨hge, ?_, fname, file, ?_, hopen, hmem⟩
    · rw [hflen] at hlt
      exact hlt
    · rw [← hnames]
      exact hget
  · intro l2 h1 h2 h3
    unfold LegacyLoader.Load
    rw [h1]
    simp only [Bool.false_eq_true, if_false]
    unfold loadLoop
    rw [h2, h3]
    simp

theorem load_skips_last_data_file_witness :
    (NewLegacyLoader ["a", "b"] [] false 60).dataFNames ≠ [] ∧
    0 ≤ loadWitnessFinal.dataFileIdx ∧
    loadWitnessFinal.dataFileIdx <
      ((NewLegacyLoader ["a", "b"] [] false 60).dataFNames.length : Int) - 1 := by
  have h := load_skips_last_data_file loadWitnessEnv [] 0 10
    (NewLegacyLoader ["a", "b"] [] false 60) (by decide) rfl (by decide) rfl
  have h2 := h.2.1 loadWitnessFinal ⟨2, 0⟩ (by decide)
  exact ⟨by decide, h2.1, h2.2.1⟩

/-! ### C3: the WriteData duplicate filter -/

/-- C3 counterexample: with id 5 committed, the first v1 WriteData is a no-op
that leaves the journal (and so the committed set) unchanged, and a second
WriteData of the same record is dropped again instead of being accepted; the
v2 WriteData consumes the entry and accepts the second write. -/
theorem writeData_consume_counterexample :
    (cexJournal.WriteDataV1 cexData 0 true).1 = cexJournal ∧
    ((cexJournal.WriteDataV1 cexData 0 true).1.WriteDataV1 cexData 0 true).1.dataEnc = [] ∧
    ((cexJournal.WriteDataV2 cexData 0 true).1.WriteDataV2 cexData 0 true).1.dataEnc =
      [cexData] := by
  refine ⟨by decide, by decide, by decide⟩

theorem writeDataV2_mem (j : Journal) (lg : LegacyLoader) (d : Data) (now : Nat)
    (encOk : Bool) (hj : j.legacy = some lg) (hmem : lg.ids.memAt d.ID now = true) :
    j.WriteDataV2 d now encOk =
      ({ j with legacy := some { lg with ids := (lg.ids.checkAndRemove d.ID now).2 } },
        .ok) := by
  unfold Journal.WriteDataV2
  rw [hj]
  have hfst : (lg.ids.checkAndRemove d.ID now).1 = true := by
    rw [checkAndRemove_fst_eq]
    exact hmem
  simp [hfst]

theorem writeDataV2_notmem (j : Journal) (lg : LegacyLoader) (d : Data) (now : Nat)
    (hj : j.legacy = some lg) (hmem : lg.ids.memAt d.ID now = false) :
    j.WriteDataV2 d now true =
      ({ j with legacy := some lg, dataEnc := j.dataEnc ++ [d] }, .ok) := by
  unfold Journal.WriteDataV2
  rw [hj]
  have hfst : (lg.ids.checkAndRemove d.ID now).1 = false := by
    rw [checkAndRemove_fst_eq]
    exact hmem
  have hsnd := checkAndRemove_false_snd lg.ids d.ID now hmem
  simp [hfst, hsnd]

theorem writeDataV1_mem (j : Journal) (lg : LegacyLoader) (d : Data) (now : Nat)
    (encOk : Bool) (hj : j.legacy = some lg) (hmem : lg.ids.memAt d.ID now = true) :
    j.WriteDataV1 d now encOk = (j, .ok) := by
  unfold Journal.WriteDataV1
  rw [hj]
  simp [Int64Set.isIDExists, hmem]

theorem writeDataV1_notmem (j : Journal) (lg : LegacyLoader) (d : Data) (now : Nat)
    (hj : j.legacy = some lg) (hmem : lg.ids.memAt d.ID now = false) :
    j.WriteDataV1 d now true = ({ j with dataEnc := j.dataEnc ++ [d] }, .ok) := by
  unfold Journal.WriteDataV1
  rw [hj]
  simp [Int64Set.isIDExists, hmem]

theorem writeData_noop_iff_committed (j : Journal) (lg : LegacyLoader) (d : Data)
    (now : Nat) (encOk : Bool) (hj : j.legacy = some lg) :
    (lg.ids.memAt d.ID now = true →
      (j.WriteDataV2 d now encOk).2 = .ok ∧
      (j.WriteDataV2 d now encOk).1.dataEnc = j.dataEnc ∧
      ∃ lg1, (j.WriteDataV2 d now encOk).1.legacy = some lg1 ∧
        lg1.ids.memAt d.ID now = false ∧
        ((j.WriteDataV2 d now encOk).1.WriteDataV2 d now true).1.dataEnc =
          j.dataEnc ++ [d]) ∧
    (lg.ids.memAt d.ID now = false → encOk = true →
      (j.WriteDataV2 d now encOk).1.dataEnc = j.dataEnc ++ [d]) ∧
    (lg.ids.memAt d.ID now = true →
      j.WriteDataV1 d now encOk = (j, .ok) ∧
      ((j.WriteDataV1 d now encOk).1.WriteDataV1 d now true).1.dataEnc = j.dataEnc) ∧
    (lg.ids.memAt d.ID now = false → encOk = true →
      (j.WriteDataV1 d now encOk).1.dataEnc = j.dataEnc ++ [d]) := by
  refine ⟨?_, ?_, ?_, ?_⟩
  · intro hmem
    rw [writeDataV2_mem j lg d now encOk hj hmem]
    refine ⟨rfl, rfl,
      { lg with ids := (lg.ids.checkAndRemove d.ID now).2 }, rfl,
      checkAndRemove_snd_not_mem _ _ _, ?_⟩
    rw [writeDataV2_notmem _ _ d now rfl (checkAndRemove_snd_not_mem lg.ids d.ID now)]
  · intro hmem hok
    subst hok
    rw [writeDataV2_notmem j lg d now hj hmem]
  · intro hmem
    have h1 := writeDataV1_mem j lg d now encOk hj hmem
    refine ⟨h1, ?_⟩
    rw [h1]
    rw [writeDataV1_mem j lg d now true hj hmem]
  · intro hmem hok
    subst hok
    rw [writeDataV1_notmem j lg d now hj hmem]

theorem writeData_noop_iff_committed_witness :
    (cexJournal.WriteDataV2 cexData 0 true).2 = .ok ∧
    (cexJournal.WriteDataV2 cexData 0 true).1.dataEnc = cexJournal.dataEnc := by
  have h := writeData_noop_iff_committed cexJournal cexLoader cexData 0 true rfl
  have h1 := h.1 (by decide)
  exact ⟨h1.1, h1.2.1⟩

/-! ### C10: WriteId commits to the set before the encoder write -/

theorem writeId_encErr (j : Journal) (lg : LegacyLoader) (id : Int) (now : Nat)
    (hj : j.legacy = some lg) :
    j.WriteId id now false = ({ j with legacy := some (lg.AddID id now) }, .encErr) := by
  unfold Journal.WriteId
  rw [hj]
  simp

theorem writeId_ok (j : Journal) (lg : LegacyLoader) (id : Int) (now : Nat)
    (hj : j.legacy = some lg) :
    j.WriteId id now true =
      ({ j with legacy := some (lg.AddID id now), idsEnc := j.idsEnc ++ [id] }, .ok) := by
  unfold Journal.WriteId
  rw [hj]
  simp

theorem writeId_adds_before_encode (j : Journal) (lg : LegacyLoader) (id : Int)
    (now : Nat) (hj : j.legacy = some lg) (httl : 0 < lg.ids.ttl) :
    (∀ encOk, (j.WriteId id now encOk).1.legacy = some (lg.AddID id now) ∧
      (lg.AddID id now).ids.memAt id now = true) ∧
    (j.WriteId id now false).2 = .encErr ∧
    (j.WriteId id now false).1.idsEnc = j.idsEnc ∧
    ((j.WriteId id now false).1.WriteDataV2 ⟨id, 0⟩ now true).1.dataEnc =
      (j.WriteId id now false).1.dataEnc ∧
    ((j.WriteId id now false).1.WriteDataV1 ⟨id, 0⟩ now true).1.dataEnc =
      (j.WriteId id now false).1.dataEnc := by
  have hmem : (lg.AddID id now).ids.memAt id now = true :=
    memAt_add_self lg.ids id now httl
  refine ⟨?_, ?_, ?_, ?_, ?_⟩
  · intro encOk
    cases encOk
    · rw [writeId_encErr j lg id now hj]
      exact ⟨rfl, hmem⟩
    · rw [writeId_ok j lg id now hj]
      exact ⟨rfl, hmem⟩
  · rw [writeId_encErr j lg id now hj]
  · rw [writeId_encErr j lg id now hj]
  · rw [writeId_encErr j lg id now hj]
    rw [writeDataV2_mem _ (lg.AddID id now) ⟨id, 0⟩ now true rfl hmem]
  · rw [writeId_encErr j lg id now hj]
    rw [writeDataV1_mem _ (lg.AddID id now) ⟨id, 0⟩ now true rfl hmem]

theorem writeId_adds_before_encode_witness :
    (widJournal.WriteId 7 0 false).2 = .encErr ∧
    ((widJournal.WriteId 7 0 false).1.WriteDataV2 ⟨7, 0⟩ 0 true).1.dataEnc =
      (widJournal.WriteId 7 0 false).1.dataEnc := by
  have h := writeId_adds_before_encode widJournal (NewLegacyLoader [] [] false 60) 7 0
    rfl (by decide)
  exact ⟨h.2.1, h.2.2.2.1⟩

/-! ### C9: Clean keeps only the last name and clears the handle -/

theorem removeFiles_not_mem (disk names : List String) (f : String) (hf : f ∈ names) :
    f ∉ removeFilesFromDisk disk names := by
  unfold removeFilesFromDisk
  intro hmem
  have h2 := (List.mem_filter.mp hmem).2
  simp at h2
  exact h2 hf

theorem removeFiles_subset (disk names : List String) (f : String)
    (hf : f ∈ removeFilesFromDisk disk names) : f ∈ disk :=
  (List.mem_filter.mp hf).1

theorem cleanOne_disk_subset (fnames disk : List String) (f : String)
    (hf : f ∈ (cleanOne fnames disk).2) : f ∈ disk := by
  unfold cleanOne at hf
  by_cases hlen : 1 < fnames.length
  · rw [if_pos hlen] at hf
    exact removeFiles_subset _ _ _ hf
  · rw [if_neg hlen] at hf
    exact hf

theorem cleanOne_spec (fnames disk : List String) (h : fnames ≠ []) :
    ∃ x, fnames.getLast? = some x ∧ (cleanOne fnames disk).1 = [x] ∧
      ∀ f ∈ fnames.dropLast, f ∉ (cleanOne fnames disk).2 := by
  have hsome : fnames.getLast?.isSome := List.getLast?_isSome.mpr h
  obtain ⟨x, hx⟩ := Option.isSome_iff_exists.mp hsome
  refine ⟨x, hx, ?_, ?_⟩
  · unfold cleanOne
    by_cases hlen : 1 < fnames.length
    · rw [if_pos hlen]
      simp [hx]
    · rw [if_neg hlen]
      have hone : fnames.length = 1 := by
        have := List.length_pos.mpr h
        omega
      obtain ⟨a, ha⟩ := List.length_eq_one.mp hone
      subst ha
      simp at hx
      simp [hx]
  · intro f hf
    unfold cleanOne
    by_cases hlen : 1 < fnames.length
    · rw [if_pos hlen]
      exact removeFiles_not_mem disk fnames.dropLast f hf
    · rw [if_neg hlen]
      have hone : fnames.length = 1 := by
        have := List.length_pos.mpr h
        omega
      obtain ⟨a, ha⟩ := List.length_eq_one.mp hone
      subst ha
      simp at hf

theorem cleanOne_short (fnames disk : List String) (h : fnames.length ≤ 1) :
    cleanOne fnames disk = (fnames, disk) := by
  unfold cleanOne
  rw [if_neg]
  omega

theorem clean_keeps_last_and_clears_handle (l : LegacyLoader) (disk : List String) :
    (l.Clean disk).1.dataFp = none ∧
    (l.dataFNames ≠ [] →
      ∃ x, l.dataFNames.getLast? = some x ∧ (l.Clean disk).1.dataFNames = [x] ∧
        ∀ f ∈ l.dataFNames.dropLast, f ∉ (l.Clean disk).2) ∧
    (l.idsFNames ≠ [] →
      ∃ y, l.idsFNames.getLast? = some y ∧ (l.Clean disk).1.idsFNames = [y] ∧
        ∀ f ∈ l.idsFNames.dropLast, f ∉ (l.Clean disk).2) ∧
    (l.dataFNames.length ≤ 1 → (l.Clean disk).1.dataFNames = l.dataFNames) ∧
    (l.idsFNames.length ≤ 1 → (l.Clean disk).1.idsFNames = l.idsFNames) := by
  refine ⟨rfl, ?_, ?_, ?_, ?_⟩
  · intro h
    obtain ⟨x, hx, hlist, hgone⟩ := cleanOne_spec l.dataFNames disk h
    refine ⟨x, hx, hlist, ?_⟩
    intro f hf hmem
    have hmem1 : f ∈ (cleanOne l.dataFNames disk).2 :=
      cleanOne_disk_subset l.idsFNames (cleanOne l.dataFNames disk).2 f hmem
    exact hgone f hf hmem1
  · intro h
    obtain ⟨y, hy, hlist, hgone⟩ :=
      cleanOne_spec l.idsFNames (cleanOne l.dataFNames disk).2 h
    exact ⟨y, hy, hlist, hgone⟩
  · intro h
    have hshort := cleanOne_short l.dataFNames disk h
    show (cleanOne l.dataFNames disk).1 = l.dataFNames
    rw [hshort]
  · intro h
    have hshort := cleanOne_short l.idsFNames (cleanOne l.dataFNames disk).2 h
    show (cleanOne l.idsFNames (cleanOne l.dataFNames disk).2).1 = l.idsFNames
    rw [hshort]

theorem clean_keeps_last_and_clears_handle_witness :
    (cleanWitnessLoader.Clean ["d/a.buf", "d/b.buf", "d/a.ids", "d/b.ids"]).1.dataFp =
      none ∧
    cleanWitnessLoader.dataFNames ≠ [] ∧
    (cleanWitnessLoader.Clean ["d/a.buf", "d/b.buf", "d/a.ids", "d/b.ids"]).1.dataFNames =
      ["d/b.buf"] := by
  have h := clean_keeps_last_and_clears_handle cleanWitnessLoader
    ["d/a.buf", "d/b.buf", "d/a.ids", "d/b.ids"]
  obtain ⟨x, hx, hlist, hgone⟩ := h.2.1 (by decide)
  have hx2 : x = "d/b.buf" := by
    have hcomp : cleanWitnessLoader.dataFNames.getLast? = some "d/b.buf" := by decide
    rw [hcomp] at hx
    exact (Option.some.inj hx).symm
  exact ⟨h.1, by decide, hx2 ▸ hlist⟩

/-- C4: LoadMaxId does not return the maximum across all id files: with two
id files whose per-file maxima are 5 (first file) and 3 (second file) it
returns 3, the per-file maximum of the last scanned file, because the source
returns the loop variable id instead of the accumulated maxId. The loop that
returns the accumulator instead gives the mandated 5. -/
theorem loadMaxId_returns_last_file_max :
    (NewLegacyLoader [] ["a", "b"] false 0).LoadMaxId
      [("a", .ok 5), ("b", .ok 3)] = (3, none) ∧
    (NewLegacyLoader [] ["a", "b"] false 0).loadMaxIdSpec
      [("a", .ok 5), ("b", .ok 3)] = (5, none) ∧
    (3 : Int) ≠ 5 := by
  refine ⟨rfl, rfl, by decide⟩

/-- C8: in the v1 PrepareNewBufFile (part_002) with compression enabled, the
three-argument GenerateNewBufFName already appends one gz suffix, and the
compression block then appends two more literal gz suffixes to the data name
(none to the ids name), so the new data file name ends in .gz.gz.gz; the
fs.go appendGzSuffix block appends exactly one suffix to each name and is
idempotent on the result. -/
theorem prepareNewBufFile_v1_double_gz :
    generateNewBufFNameV1 "20060102" "20060102_00000001.buf" true =
      .ok "20060102_00000002.buf.gz" ∧
    generateNewBufFNameV1 "20060102" "20060102_00000001.ids" true =
      .ok "20060102_00000002.ids.gz" ∧
    prepareNamesV1 "20060102_00000002.buf.gz" "20060102_00000002.ids.gz" true =
      ("20060102_00000002.buf.gz.gz.gz", "20060102_00000002.ids.gz") ∧
    goHasSuffix "20060102_00000002.buf.gz.gz.gz" ".gz.gz" = true ∧
    prepareNamesV2 "20060102_00000002.buf" "20060102_00000002.ids" true =
      ("20060102_00000002.buf.gz", "20060102_00000002.ids.gz") ∧
    prepareNamesV2 "20060102_00000002.buf.gz" "20060102_00000002.ids.gz" true =
      ("20060102_00000002.buf.gz", "20060102_00000002.ids.gz") := by
  refine ⟨rfl, rfl, rfl, rfl, rfl, rfl⟩

/-! ### C5: what the scan loop collects -/

theorem scanBufDirAux_eq (dirPath : String) (ex : String → Bool) :
    ∀ (listing : List String) (st : ScanState),
      (∀ f ∈ listing, ex (pathJoin dirPath f) = true) →
      scanBufDirAux dirPath ex listing st = some
        { oldDataFnames :=
            st.oldDataFnames ++ (listing.filter isDataFName).map (pathJoin dirPath)
          oldIDsFnames :=
            st.oldIDsFnames ++
              (listing.filter (fun f => !isDataFName f && isIdsFName f)).map
                (pathJoin dirPath)
          latestDataFName := maxNameFrom st.latestDataFName (listing.filter isDataFName)
          latestIDsFName :=
            maxNameFrom st.latestIDsFName
              (listing.filter (fun f => !isDataFName f && isIdsFName f)) } := by
  intro listing
  induction listing with
  | nil =>
    intro st hex
    simp [scanBufDirAux, maxNameFrom]
  | cons f rest ih =>
    intro st hex
    have hexf : ex (pathJoin dirPath f) = true := hex f (List.mem_cons_self f rest)
    have hexr : ∀ g ∈ rest, ex (pathJoin dirPath g) = true := fun g hg =>
      hex g (List.mem_cons_of_mem f hg)
    unfold scanBufDirAux
    rw [if_pos hexf]
    rw [ih (scanStep dirPath st f) hexr]
    by_cases hdata : isDataFName f = true
    · simp [scanStep, hdata, maxNameFrom]
    · by_cases hids : isIdsFName f = true
      · simp [scanStep, hdata, hids, maxNameFrom]
      · simp [scanStep, hdata, hids, maxNameFrom]

theorem scan_collects_all_matching (dirPath : String) (ex : String → Bool)
    (listing : List String) (hex : ∀ f ∈ listing, ex (pathJoin dirPath f) = true) :
    ∃ st, prepareNewBufFileScan dirPath ex listing = some st ∧
      st.oldDataFnames = (listing.filter isDataFName).map (pathJoin dirPath) ∧
      st.oldIDsFnames =
        (listing.filter (fun f => !isDataFName f && isIdsFName f)).map
          (pathJoin dirPath) ∧
      st.latestDataFName = maxNameFrom "" (listing.filter isDataFName) ∧
      st.latestIDsFName =
        maxNameFrom "" (listing.filter (fun f => !isDataFName f && isIdsFName f)) := by
  unfold prepareNewBufFileScan
  rw [scanBufDirAux_eq dirPath ex listing ⟨[], [], "", ""⟩ hex]
  exact ⟨_, rfl, by simp, by simp, rfl, rfl⟩

theorem scan_collects_all_matching_witness :
    ∃ st, prepareNewBufFileScan "d" (fun _ => true)
        ["20060101_00000001.buf", "x.txt", "20060101_00000001.ids"] = some st ∧
      st.oldDataFnames = ["d/20060101_00000001.buf"] ∧
      st.oldIDsFnames = ["d/20060101_00000001.ids"] := by
  obtain ⟨st, h1, h2, h3, _, _⟩ := scan_collects_all_matching "d" (fun _ => true)
    ["20060101_00000001.buf", "x.txt", "20060101_00000001.ids"]
    (by intro f hf; rfl)
  refine ⟨st, h1, ?_, ?_⟩
  · rw [h2]
    decide
  · rw [h3]
    decide

/-- C5 counterexample: scanning a directory with two data segments puts both
of them, the lexicographically greatest included, into oldDataFnames; the
list is not the matching entries with the greatest removed. -/
theorem scan_includes_greatest_counterexample :
    prepareNewBufFileScan "d" (fun _ => true)
      ["20060101_00000001.buf", "20060102_00000001.buf"] =
      some ⟨["d/20060101_00000001.buf", "d/20060102_00000001.buf"], [],
            "20060102_00000001.buf", ""⟩ ∧
    (prepareNewBufFileScan "d" (fun _ => true)
      ["20060101_00000001.buf", "20060102_00000001.buf"]).map ScanState.oldDataFnames ≠
      some ["d/20060101_00000001.buf"] := by
  refine ⟨by decide, by decide⟩

/-! ### C6: new-name derivation on well-formed names -/

theorem digit_toNat_le (c : Char) (h : c.isDigit = true) : c.toNat - '0'.toNat ≤ 9 := by
  simp [Char.isDigit] at h
  obtain ⟨h1, h2⟩ := h
  have h3 : c.toNat ≤ 57 := by
    have h5 : c.val.toNat ≤ (57 : UInt32).toNat := by exact_mod_cast h2
    simpa [Char.toNat] using h5
  have h4 : ('0'.toNat : Nat) = 48 := by decide
  omega

theorem digit_ne (c x : Char) (h : c.isDigit = true) (hx : x.isDigit = false) :
    c ≠ x := by
  intro he
  subst he
  rw [h] at hx
  exact Bool.noConfusion hx

theorem splitFirstDot_append (pre rest : List Char) (h : ∀ c ∈ pre, c ≠ '.') :
    splitFirstDot (pre ++ '.' :: rest) = some (pre, rest) := by
  induction pre with
  | nil => simp [splitFirstDot]
  | cons c cs ih =>
    have hc : c ≠ '.' := h c (List.mem_cons_self c cs)
    have hcs : ∀ x ∈ cs, x ≠ '.' := fun x hx => h x (List.mem_cons_of_mem c hx)
    simp [splitFirstDot, hc, ih hcs]

theorem parseDigitsAux_all (cs : List Char) :
    ∀ acc, (∀ c ∈ cs, c.isDigit = true) →
      parseDigitsAux cs acc =
        some (cs.foldl (fun a c => a * 10 + (c.toNat - '0'.toNat)) acc) := by
  induction cs with
  | nil =>
    intro acc h
    simp [parseDigitsAux]
  | cons c cs ih =>
    intro acc h
    have hc := h c (List.mem_cons_self c cs)
    simp [parseDigitsAux, hc, ih _ (fun x hx => h x (List.mem_cons_of_mem c hx))]

theorem digitsFoldl_lt (cs : List Char) :
    ∀ acc, (∀ c ∈ cs, c.isDigit = true) →
      cs.foldl (fun a c => a * 10 + (c.toNat - '0'.toNat)) acc <
        (acc + 1) * 10 ^ cs.length := by
  induction cs with
  | nil =>
    intro acc h
    simp
  | cons c cs ih =>
    intro acc h
    have hd : c.toNat - '0'.toNat ≤ 9 :=
      digit_toNat_le c (h c (List.mem_cons_self c cs))
    have ih2 := ih (acc * 10 + (c.toNat - '0'.toNat))
      (fun x hx => h x (List.mem_cons_of_mem c hx))
    simp only [List.foldl_cons, List.length_cons]
    calc cs.foldl (fun a c => a * 10 + (c.toNat - '0'.toNat))
          (acc * 10 + (c.toNat - '0'.toNat)) <
        (acc * 10 + (c.toNat - '0'.toNat) + 1) * 10 ^ cs.length := ih2
      _ ≤ ((acc + 1) * 10) * 10 ^ cs.length := by
          have hb : acc * 10 + (c.toNat - '0'.toNat) + 1 ≤ (acc + 1) * 10 := by omega
          exact Nat.mul_le_mul_right _ hb
      _ = (acc + 1) * 10 ^ (cs.length + 1) := by ring

theorem digitsToNat_lt (cs : List Char) (h : ∀ c ∈ cs, c.isDigit = true) :
    digitsToNat cs < 10 ^ cs.length := by
  have h2 := digitsFoldl_lt cs 0 h
  simpa [digitsToNat] using h2

theorem parseDigits_all (cs : List Char) (hne : cs ≠ [])
    (h : ∀ c ∈ cs, c.isDigit = true) :
    parseDigits cs = some (digitsToNat cs) := by
  cases cs with
  | nil => exact absurd rfl hne
  | cons c cs2 => exact parseDigitsAux_all (c :: cs2) 0 h

theorem parseGoInt64_digits (cs : List Char) (hne : cs ≠ [])
    (h : ∀ c ∈ cs, c.isDigit = true) (hlen : cs.length ≤ 18) :
    parseGoInt64 ⟨cs⟩ = some ((digitsToNat cs : Nat) : Int) := by
  cases cs with
  | nil => exact absurd rfl hne
  | cons c cs2 =>
    have hc := h c (List.mem_cons_self c cs2)
    have hplus : ¬(c = '+') := digit_ne c '+' hc (by decide)
    have hminus : ¬(c = '-') := digit_ne c '-' hc (by decide)
    have hparse := parseDigits_all (c :: cs2) (by simp) h
    have hbound : digitsToNat (c :: cs2) ≤ 2 ^ 63 - 1 := by
      have h1 := digitsToNat_lt (c :: cs2) h
      have h2 : (10 : Nat) ^ (c :: cs2).length ≤ 10 ^ 18 :=
        Nat.pow_le_pow_right (by norm_num) hlen
      have h3 : (10 : Nat) ^ 18 ≤ 2 ^ 63 - 1 := by norm_num
      omega
    show parseGoInt64Chars (c :: cs2) = some ((digitsToNat (c :: cs2) : Nat) : Int)
    simp only [parseGoInt64Chars]
    rw [if_neg hplus, if_neg hminus, hparse]
    norm_num at hbound
    simp [hbound]

theorem generateNewBufFName_wellformed
    (nowStr : String) (dcs scs ecs : List Char)
    (hdlen : dcs.length = 8) (hdall : ∀ c ∈ dcs, c.isDigit = true)
    (hslen : scs.length = 8) (hsall : ∀ c ∈ scs, c.isDigit = true) :
    generateNewBufFName nowStr ⟨dcs ++ '_' :: scs ++ '.' :: ecs⟩ =
      (if nowStr ≠ (⟨dcs⟩ : String) then
        GenResult.ok (nowStr ++ "_00000001." ++ lowerStr ⟨ecs⟩)
      else
        GenResult.ok ((⟨dcs⟩ : String) ++ "_" ++
          fmtInt08 ((digitsToNat scs : Nat) + 1) ++ "." ++ lowerStr ⟨ecs⟩)) := by
  have hpredot : ∀ c ∈ dcs ++ '_' :: scs, c ≠ '.' := by
    intro c hc
    rcases List.mem_append.mp hc with h1 | h2
    · exact digit_ne c '.' (hdall c h1) (by decide)
    · rcases List.mem_cons.mp h2 with h3 | h4
      · subst h3
        decide
      · exact digit_ne c '.' (hsall c h4) (by decide)
  have hdata : (⟨dcs ++ '_' :: scs ++ '.' :: ecs⟩ : String).data =
      (dcs ++ '_' :: scs) ++ '.' :: ecs := by
    show dcs ++ '_' :: scs ++ '.' :: ecs = (dcs ++ '_' :: scs) ++ '.' :: ecs
    simp
  have hsplit : splitFirstDot ((dcs ++ '_' :: scs) ++ '.' :: ecs) =
      some (dcs ++ '_' :: scs, ecs) := splitFirstDot_append _ _ hpredot
  have hlen17 : (dcs ++ '_' :: scs).length = 17 := by
    simp [hdlen, hslen]
  have htake : (dcs ++ '_' :: scs).take 8 = dcs := by
    rw [← hdlen]
    exact List.take_left dcs ('_' :: scs)
  have hdrop : (dcs ++ '_' :: scs).drop 9 = scs := by
    have h9 : 9 = dcs.length + 1 := by omega
    rw [h9]
    rw [List.drop_append]
    rfl
  have hsne : scs ≠ [] := by
    intro he
    rw [he] at hslen
    simp at hslen
  have hparse : parseGoInt64 ⟨scs⟩ = some ((digitsToNat scs : Nat) : Int) :=
    parseGoInt64_digits scs hsne hsall (by omega)
  unfold generateNewBufFName
  rw [hdata, hsplit]
  simp only
  rw [if_neg (by omega : ¬(dcs ++ '_' :: scs).length < 9)]
  rw [htake, hdrop]
  by_cases hnow : nowStr ≠ (⟨dcs⟩ : String)
  · rw [if_pos hnow, if_pos hnow]
  · rw [if_neg hnow, if_neg hnow, hparse]

theorem generateNewBufFName_wellformed_witness :
    (∀ c ∈ ['2', '0', '0', '6', '0', '1', '0', '2'], c.isDigit = true) ∧
    generateNewBufFName "20060102" "20060102_00000001.buf" =
      .ok "20060102_00000002.buf" ∧
    generateNewBufFName "20060102" "20060102_00000009.buf" =
      .ok "20060102_00000010.buf" ∧
    generateNewBufFName "20060104" "20060102_00000002.buf" =
      .ok "20060104_00000001.buf" := by
  refine ⟨by decide, ?_, ?_, ?_⟩
  · have h := generateNewBufFName_wellformed "20060102"
      ['2', '0', '0', '6', '0', '1', '0', '2'] ['0', '0', '0', '0', '0', '0', '0', '1']
      ['b', 'u', 'f'] (by decide) (by decide) (by decide) (by decide)
    rw [if_neg (by decide)] at h
    exact h.trans (by decide)
  · have h := generateNewBufFName_wellformed "20060102"
      ['2', '0', '0', '6', '0', '1', '0', '2'] ['0', '0', '0', '0', '0', '0', '0', '9']
      ['b', 'u', 'f'] (by decide) (by decide) (by decide) (by decide)
    rw [if_neg (by decide)] at h
    exact h.trans (by decide)
  · have h := generateNewBufFName_wellformed "20060104"
      ['2', '0', '0', '6', '0', '1', '0', '2'] ['0', '0', '0', '0', '0', '0', '0', '2']
      ['b', 'u', 'f'] (by decide) (by decide) (by decide) (by decide)
    rw [if_pos (by decide)] at h
    exact h.trans (by decide)

/-! ### C7: totality and the panic window of GenerateNewBufFName -/

theorem generateNewBufFName_totality (nowStr old : String) :
    (splitFirstDot old.data = none → generateNewBufFName nowStr old = .err old) ∧
    (∀ ne, splitFirstDot old.data = some ne → ne.1.length < 9 →
      generateNewBufFName nowStr old = .panicked) ∧
    (∀ ne, splitFirstDot old.data = some ne → 9 ≤ ne.1.length →
      generateNewBufFName nowStr old ≠ .panicked) ∧
    (∀ ne, splitFirstDot old.data = some ne → 9 ≤ ne.1.length →
      ¬nowStr ≠ (⟨ne.1.take 8⟩ : String) → parseGoInt64 ⟨ne.1.drop 9⟩ = none →
      generateNewBufFName nowStr old = .err old) := by
  refine ⟨?_, ?_, ?_, ?_⟩
  · intro h
    unfold generateNewBufFName
    rw [h]
  · intro ne hs hlen
    unfold generateNewBufFName
    rw [hs]
    simp only
    rw [if_pos hlen]
  · intro ne hs hlen
    unfold generateNewBufFName
    rw [hs]
    simp only
    rw [if_neg (by omega : ¬ne.1.length < 9)]
    by_cases hnow : nowStr ≠ (⟨ne.1.take 8⟩ : String)
    · rw [if_pos hnow]
      intro hcon
      exact GenResult.noConfusion hcon
    · rw [if_neg hnow]
      cases hp : parseGoInt64 ⟨ne.1.drop 9⟩ with
      | none =>
        intro hcon
        exact GenResult.noConfusion hcon
      | some idx =>
        intro hcon
        exact GenResult.noConfusion hcon
  · intro ne hs hlen hnow hparse
    unfold generateNewBufFName
    rw [hs]
    simp only
    rw [if_neg (by omega : ¬ne.1.length < 9), if_neg hnow, hparse]

theorem generateNewBufFName_totality_witness :
    splitFirstDot ("20060102_0000000x.buf" : String).data =
      some ("20060102_0000000x".data, "buf".data) ∧
    generateNewBufFName "20060102" "20060102_0000000x.buf" =
      .err "20060102_0000000x.buf" := by
  refine ⟨by decide, ?_⟩
  have h := (generateNewBufFName_totality "20060102" "20060102_0000000x.buf").2.2.2
    ("20060102_0000000x".data, "buf".data) (by decide) (by decide) (by decide) (by decide)
  exact h

/-- C7 counterexample: a previous name whose portion before the first dot is
shorter than nine characters makes GenerateNewBufFName panic (slice out of
range) instead of returning the original name with an error. -/
theorem generateNewBufFName_short_name_counterexample :
    generateNewBufFName "20060102" "20060102.buf" = .panicked ∧
    generateNewBufFName "20060102" "20060102.buf" ≠ .err "20060102.buf" := by
  refine ⟨rfl, by decide⟩

end GoJournal
